import Mathlib

/-!
Verification of the bounded blocking queue (`src/BBQ.cpp`) and its driver
(`src/main.cpp`).

The queue is embedded as a guarded transition system: each operation of
`BBQ.cpp` runs entirely under the single mutex, so a completed operation is
one atomic guarded step on the shared state `(m_head, m_tail, m_items)`.
A call whose guard (the condition-variable predicate) is false blocks; in
the embedding the step is disabled (`none`).  An interleaving of completed
operations is a list of steps executed in the order their critical sections
ran.

The header `BBQ.h` is not part of `src/`; the class constant `MAX`, the
member declarations and the predicates `BBQ::canInsert` / `BBQ::canRemove`
live there.  Those parts are modelled from the spec (section 3 and 4.1 of
the design document), as marked on each definition.
-/

namespace BBQ

/-- State of one `BBQ` instance as guarded by `m_mutex`:
`cap` is the class constant `MAX` (declared in the missing header `BBQ.h`,
modelled from the spec as the fixed capacity), `head`/`tail` are the
monotone counters `m_head`/`m_tail`, and `items` is the storage array
`m_items` of length `cap`. -/
structure QState where
  cap : Nat
  head : Nat
  tail : Nat
  items : List Int
deriving DecidableEq, Repr

/-- Constructor `BBQ::BBQ()` from `src/BBQ.cpp` line 7: both counters start
at 0; the storage array has length `MAX` (its initial contents are never
read, modelled as zeros). -/
def init (MAX : Nat) : QState :=
  { cap := MAX, head := 0, tail := 0, items := List.replicate MAX 0 }

/-- Modelled from the spec: `BBQ::canInsert` is declared in the missing
header `BBQ.h`; per the spec, insert proceeds once `count < capacity`,
where `count = tail - head`. -/
def canInsert (s : QState) : Bool :=
  s.tail - s.head < s.cap

/-- Modelled from the spec: `BBQ::canRemove` is declared in the missing
header `BBQ.h`; per the spec, remove proceeds once `count > 0`. -/
def canRemove (s : QState) : Bool :=
  s.head < s.tail

/-- Result of a completed `BBQ::insert`: the new state, and how many
`notify_one` calls the operation issued on each condition variable. -/
structure InsertResult where
  state : QState
  itemAddedSignals : Nat
  itemRemovedSignals : Nat
deriving DecidableEq, Repr

/-- Result of a completed `BBQ::remove`: the new state, the returned item,
and how many `notify_one` calls the operation issued on each condition
variable. -/
structure RemoveResult where
  state : QState
  ret : Int
  itemAddedSignals : Nat
  itemRemovedSignals : Nat
deriving DecidableEq, Repr

/-- `BBQ::insert` from `src/BBQ.cpp` lines 9-16: under the lock, wait until
`canInsert`, then `m_items[m_tail % MAX] = item; m_tail++;` and one
`m_itemAdded.notify_one()`.  A call with the guard false blocks: `none`. -/
def insert (item : Int) (s : QState) : Option InsertResult :=
  if canInsert s then
    some { state := { cap := s.cap, head := s.head, tail := s.tail + 1,
                      items := s.items.set (s.tail % s.cap) item },
           itemAddedSignals := 1, itemRemovedSignals := 0 }
  else none

/-- `BBQ::remove` from `src/BBQ.cpp` lines 18-26: under the lock, wait until
`canRemove`, then read `m_items[m_head % MAX]`, `m_head++`, one
`m_itemRemoved.notify_one()`, and return the item.  A call with the guard
false blocks: `none`. -/
def remove (s : QState) : Option RemoveResult :=
  if canRemove s then
    some { state := { cap := s.cap, head := s.head + 1, tail := s.tail,
                      items := s.items },
           ret := s.items.getD (s.head % s.cap) 0,
           itemAddedSignals := 0, itemRemovedSignals := 1 }
  else none

/-- One completed queue operation, in the order the critical sections
executed. -/
inductive Op where
  | ins (v : Int)
  | rem
deriving DecidableEq, Repr

/-- One atomic step: the new state together with the list of items this
step returned to its caller (empty for insert, a singleton for remove). -/
def stepOp (s : QState) : Op → Option (QState × List Int)
  | Op.ins v => (insert v s).map (fun r => (r.state, []))
  | Op.rem => (remove s).map (fun r => (r.state, [r.ret]))

/-- Run a sequence of operations; `some (s, outs)` means every operation in
the list completed (none was left blocked), ending in state `s` with `outs`
the items returned by the removes in order. -/
def runFrom (s : QState) : List Op → Option (QState × List Int)
  | [] => some (s, [])
  | op :: ops =>
    match stepOp s op with
    | none => none
    | some (s1, out) =>
      (runFrom s1 ops).map (fun p => (p.1, out ++ p.2))

/-- Run a sequence of operations on a freshly constructed queue of capacity
`MAX`. -/
def run (MAX : Nat) (ops : List Op) : Option (QState × List Int) :=
  runFrom (init MAX) ops

/-- The final state of a fully completed run, when it exists. -/
def runState (MAX : Nat) (ops : List Op) : Option QState :=
  (run MAX ops).map Prod.fst

/-- The items returned by the removes of a fully completed run, in order. -/
def runOuts (MAX : Nat) (ops : List Op) : Option (List Int) :=
  (run MAX ops).map Prod.snd

/-- The items an operation sequence passes to insert, in order. -/
def insertedItems : List Op → List Int
  | [] => []
  | Op.ins v :: ops => v :: insertedItems ops
  | Op.rem :: ops => insertedItems ops

/-- Number of remove operations in a sequence. -/
def removeCount : List Op → Nat
  | [] => 0
  | Op.ins _ :: ops => removeCount ops
  | Op.rem :: ops => removeCount ops + 1

/-- The live contents of the queue, oldest first: the stored values at the
logical indices `head, head+1, ..., tail-1`. -/
def liveList (s : QState) : List Int :=
  (List.range (s.tail - s.head)).map (fun k => s.items.getD ((s.head + k) % s.cap) 0)

/-- Two logical indices less than one window of size `cap` apart occupy
distinct physical slots. -/
theorem mod_ne_of_add {j d cap : Nat} (h0 : 0 < d) (hc : d < cap) :
    (j + d) % cap ≠ j % cap := by
  intro h
  have h1 : Nat.ModEq cap j (j + d) := h.symm
  have h2 : cap ∣ j + d - j := (Nat.modEq_iff_dvd' (Nat.le_add_right j d)).mp h1
  have h3 : cap ∣ d := by simpa using h2
  exact absurd (Nat.le_of_dvd h0 h3) (Nat.not_le.mpr hc)

theorem getD_set_self {l : List Int} {i : Nat} {a : Int} (h : i < l.length) :
    (l.set i a).getD i 0 = a := by
  simp [List.getD, List.getElem?_set, h]

theorem getD_set_other {l : List Int} {i j : Nat} {a : Int} (h : i ≠ j) :
    (l.set i a).getD j 0 = l.getD j 0 := by
  simp [List.getD, List.getElem?_set, h]

theorem getD_append_left {l l2 : List Int} {j : Nat} (h : j < l.length) :
    (l ++ l2).getD j 0 = l.getD j 0 := by
  simp [List.getD, List.getElem?_append, h]

theorem getD_append_self {l : List Int} {a : Int} :
    (l ++ [a]).getD l.length 0 = a := by
  simp [List.getD]

theorem drop_eq_getD_cons {l : List Int} {n : Nat} (h : n < l.length) :
    l.drop n = l.getD n 0 :: l.drop (n + 1) := by
  rw [List.drop_eq_getElem_cons h]
  simp [List.getD, List.getElem?_eq_getElem h]

/-- Consistency of a queue state with the history `hist` of all items
inserted so far: the counters sit inside the capacity window, `tail` counts
the completed inserts, and every live logical index `j` holds the `j`-th
inserted item in its physical slot `j % cap`. -/
structure Inv (hist : List Int) (s : QState) : Prop where
  hlen : s.items.length = s.cap
  hhead : s.head ≤ s.tail
  hcount : s.tail - s.head ≤ s.cap
  htail : s.tail = hist.length
  hlive : ∀ j, s.head ≤ j → j < s.tail → s.items.getD (j % s.cap) 0 = hist.getD j 0

/-- Soundness of a completed run: it preserves the consistency invariant,
never changes the capacity, advances `head` by one per returned item, and
returns exactly the slice of the insertion history starting at the initial
`head`. -/
theorem runFrom_sound (ops : List Op) :
    ∀ hist s s1 outs, Inv hist s → runFrom s ops = some (s1, outs) →
      Inv (hist ++ insertedItems ops) s1 ∧ s1.cap = s.cap ∧
      s1.head = s.head + outs.length ∧ outs.length = removeCount ops ∧
      outs = ((hist ++ insertedItems ops).drop s.head).take (removeCount ops) := by
  induction ops with
  | nil =>
    intro hist s s1 outs hinv hrun
    simp only [runFrom, Option.some.injEq, Prod.mk.injEq] at hrun
    obtain ⟨h1, h2⟩ := hrun
    subst h1
    subst h2
    exact ⟨by simpa [insertedItems] using hinv, rfl, by simp, by simp [removeCount],
      by simp [removeCount]⟩
  | cons op ops ih =>
    intro hist s s1 outs hinv hrun
    cases op with
    | ins v =>
      cases hci : canInsert s with
      | false => simp [runFrom, stepOp, insert, hci] at hrun
      | true =>
        have hcnt : s.tail - s.head < s.cap := by
          simpa [canInsert] using hci
        simp only [runFrom, stepOp, insert, hci, if_true, Option.map_some'] at hrun
        cases hr2 : runFrom
            { cap := s.cap, head := s.head, tail := s.tail + 1,
              items := s.items.set (s.tail % s.cap) v } ops with
        | none => rw [hr2] at hrun; simp at hrun
        | some p =>
          rw [hr2] at hrun
          simp only [Option.map_some', Option.some.injEq, Prod.mk.injEq,
            List.nil_append] at hrun
          obtain ⟨hs1, houts⟩ := hrun
          have hinv2 : Inv (hist ++ [v])
              { cap := s.cap, head := s.head, tail := s.tail + 1,
                items := s.items.set (s.tail % s.cap) v } := by
            have hhh := hinv.hhead
            have hht2 := hinv.htail
            refine ⟨?_, ?_, ?_, ?_, ?_⟩
            · show (s.items.set (s.tail % s.cap) v).length = s.cap
              rw [List.length_set, hinv.hlen]
            · show s.head ≤ s.tail + 1
              omega
            · show s.tail + 1 - s.head ≤ s.cap
              omega
            · show s.tail + 1 = (hist ++ [v]).length
              simp [hht2]
            · intro j hj hjt
              have hj2 : s.head ≤ j := hj
              have hjt2 : j < s.tail + 1 := hjt
              rcases Nat.lt_succ_iff_lt_or_eq.mp hjt2 with hjlt | hje
              · have hne : s.tail % s.cap ≠ j % s.cap := by
                  have hd0 : 0 < s.tail - j := by omega
                  have hdc : s.tail - j < s.cap := by omega
                  have hmm := mod_ne_of_add hd0 hdc (j := j)
                  rwa [Nat.add_sub_cancel' (Nat.le_of_lt hjlt)] at hmm
                show ((s.items.set (s.tail % s.cap) v).getD (j % s.cap) 0) = _
                rw [getD_set_other hne, hinv.hlive j hj2 hjlt,
                  getD_append_left (by omega : j < hist.length)]
              · have hcap0 : 0 < s.cap := by omega
                have hlt : s.tail % s.cap < s.items.length := by
                  rw [hinv.hlen]; exact Nat.mod_lt _ hcap0
                subst hje
                show ((s.items.set (s.tail % s.cap) v).getD (s.tail % s.cap) 0) = _
                rw [getD_set_self hlt, hinv.htail]
                exact getD_append_self.symm
          obtain ⟨hInv, hcap, hhead, hlenout, houts2⟩ := ih (hist ++ [v]) _ p.1 p.2 hinv2 hr2
          have hcap2 : p.1.cap = s.cap := hcap
          have hhead2 : p.1.head = s.head + p.2.length := hhead
          have houts3 : p.2 = ((hist ++ [v] ++ insertedItems ops).drop s.head).take
              (removeCount ops) := houts2
          have hassoc : hist ++ insertedItems (Op.ins v :: ops)
              = (hist ++ [v]) ++ insertedItems ops := by
            simp [insertedItems]
          subst hs1
          subst houts
          exact ⟨by rwa [hassoc], hcap2, hhead2,
            by simpa [removeCount] using hlenout,
            by rw [hassoc]; simpa [removeCount] using houts3⟩
    | rem =>
      cases hcr : canRemove s with
      | false => simp [runFrom, stepOp, remove, hcr] at hrun
      | true =>
        have hht : s.head < s.tail := by
          simpa [canRemove] using hcr
        simp only [runFrom, stepOp, remove, hcr, if_true, Option.map_some'] at hrun
        cases hr2 : runFrom
            { cap := s.cap, head := s.head + 1, tail := s.tail,
              items := s.items } ops with
        | none => rw [hr2] at hrun; simp at hrun
        | some p =>
          rw [hr2] at hrun
          simp only [Option.map_some', Option.some.injEq, Prod.mk.injEq,
            List.singleton_append] at hrun
          obtain ⟨hs1, houts⟩ := hrun
          have hinv2 : Inv hist
              { cap := s.cap, head := s.head + 1, tail := s.tail,
                items := s.items } := by
            have hcnt2 := hinv.hcount
            refine ⟨?_, ?_, ?_, ?_, ?_⟩
            · show s.items.length = s.cap
              exact hinv.hlen
            · show s.head + 1 ≤ s.tail
              omega
            · show s.tail - (s.head + 1) ≤ s.cap
              omega
            · show s.tail = hist.length
              exact hinv.htail
            · intro j hj hjt
              have hj2 : s.head + 1 ≤ j := hj
              have hjt2 : j < s.tail := hjt
              exact hinv.hlive j (by omega) hjt2
          obtain ⟨hInv, hcap, hhead, hlenout, houts2⟩ := ih hist _ p.1 p.2 hinv2 hr2
          have hcap2 : p.1.cap = s.cap := hcap
          have hhead2 : p.1.head = s.head + 1 + p.2.length := hhead
          have houts3 : p.2 = ((hist ++ insertedItems ops).drop (s.head + 1)).take
              (removeCount ops) := houts2
          have hretv : s.items.getD (s.head % s.cap) 0 = hist.getD s.head 0 :=
            hinv.hlive s.head (Nat.le_refl _) hht
          have hht3 := hinv.htail
          have hhl : s.head < (hist ++ insertedItems ops).length := by
            simp only [List.length_append]
            omega
          have hslice : ((hist ++ insertedItems ops).drop s.head).take (removeCount ops + 1)
              = hist.getD s.head 0 :: ((hist ++ insertedItems ops).drop (s.head + 1)).take (removeCount ops) := by
            rw [drop_eq_getD_cons hhl, List.take_succ_cons,
              getD_append_left (by omega : s.head < hist.length)]
          subst hs1
          subst houts
          refine ⟨by simpa [insertedItems] using hInv, hcap2, ?_, ?_, ?_⟩
          · simp only [List.length_cons]
            omega
          · simp only [List.length_cons, removeCount]
            omega
          · show _ = ((hist ++ insertedItems ops).drop s.head).take (removeCount ops + 1)
            rw [hslice, hretv.symm, houts3]

/-- Soundness of a completed run from a freshly constructed queue. -/
theorem run_sound (MAX : Nat) (ops : List Op) (s1 : QState) (outs : List Int)
    (hrun : run MAX ops = some (s1, outs)) :
    Inv (insertedItems ops) s1 ∧ s1.cap = MAX ∧ s1.head = outs.length ∧
    outs.length = removeCount ops ∧
    outs = (insertedItems ops).take (removeCount ops) := by
  have hinv0 : Inv [] (init MAX) := by
    refine ⟨by simp [init], Nat.le_refl _, by simp [init], by simp [init], ?_⟩
    intro j hj hjt
    simp [init] at hjt
  have h := runFrom_sound ops [] (init MAX) s1 outs hinv0 hrun
  simpa [init] using h

end BBQ

namespace Driver

/-- C `isspace` for the default locale, as `atoi` skips leading whitespace. -/
def isSpaceChar (c : Char) : Bool :=
  c = ' ' ∨ c = '\t' ∨ c = '\n' ∨ c = '\x0b' ∨ c = '\x0c' ∨ c = '\r'

/-- Accumulate the value of a maximal leading digit run, as `atoi` does. -/
def atoiDigits (acc : Int) : List Char → Int
  | [] => acc
  | c :: cs =>
    if c.isDigit then atoiDigits (10 * acc + ((c.toNat : Int) - 48)) cs else acc

/-- Drop the leading whitespace that `atoi` skips. -/
def dropSpaces : List Char → List Char
  | [] => []
  | c :: cs => if isSpaceChar c then dropSpaces cs else c :: cs

/-- C `atoi`, used by `main` (src/main.cpp lines 88-89) on `argv[1]` and
`argv[2]`: skip whitespace, read an optional sign and a maximal digit run;
a string with no leading digits parses to 0. -/
def atoi (s : String) : Int :=
  match dropSpaces s.data with
  | '-' :: cs => -(atoiDigits 0 cs)
  | '+' :: cs => atoiDigits 0 cs
  | cs => atoiDigits 0 cs

/-- The two parsed command-line sleep bounds, from src/main.cpp lines 88-89. -/
structure Config where
  producersMaxSleep : Int
  consumersMaxSleep : Int
deriving DecidableEq, Repr

/-- What `main` (src/main.cpp lines 73-92) does before any thread exists:
abort with a usage message, or go on to spawn the workers. -/
inductive MainOutcome where
  | usageAbort
  | spawn (cfg : Config)
deriving DecidableEq, Repr

/-- Argument handling of `main` (src/main.cpp lines 76-92): `args` is
`argv` without the program name, so `argc = args.length + 1`.  When
`argc != 3` the program prints the usage text and exits before spawning
any thread; otherwise it parses both arguments with `atoi` and proceeds. -/
def mainArgPhase (args : List String) : MainOutcome :=
  if args.length + 1 ≠ 3 then MainOutcome.usageAbort
  else MainOutcome.spawn { producersMaxSleep := atoi (args.getD 0 ""),
                           consumersMaxSleep := atoi (args.getD 1 "") }

/-- The sleep-duration computation `std::rand() % max_sleep_time_ms` of the
worker loops (src/main.cpp lines 33 and 59).  C integer remainder is the
truncated remainder and is undefined when the divisor is zero: `none`. -/
def sleepDuration (randVal maxSleep : Int) : Option Int :=
  if maxSleep = 0 then none else some (randVal.tmod maxSleep)

/-- One iteration of `producerTask` (src/main.cpp lines 29-32): the driver
calls `tsqueue.insert(std::rand(), pos)`, which returns a `bool`, and
prints the line `Item pos+1 produced ...` only when that call returned
`true`.  The printed position is modelled as the output. -/
def producerIterationReport (insertReturn : Bool) (pos : Int) : Option Int :=
  if insertReturn then some (pos + 1) else none

/-- One iteration of `consumerTask` (src/main.cpp lines 54-58): the driver
calls `tsqueue.remove(item, pos)`, which returns a `bool`, and prints the
line `Item pos+1 consumed ...` only when that call returned `true`. -/
def consumerIterationReport (removeReturn : Bool) (pos : Int) : Option Int :=
  if removeReturn then some (pos + 1) else none

end Driver

example : Driver.atoi "42" = 42 := by decide

example : Driver.atoi "  -17" = -17 := by decide

example : Driver.atoi "abc" = 0 := by decide

example : Driver.atoi "12ab" = 12 := by decide

example : Driver.mainArgPhase ["abc", "5"] = Driver.MainOutcome.spawn ⟨0, 5⟩ := by decide

example : Driver.mainArgPhase ["7"] = Driver.MainOutcome.usageAbort := by decide

example : BBQ.runOuts 2 [BBQ.Op.ins 5, BBQ.Op.ins 7, BBQ.Op.rem, BBQ.Op.rem] = some [5, 7] := by
  decide

example : BBQ.runOuts 2 [BBQ.Op.ins 5, BBQ.Op.ins 7, BBQ.Op.ins 9] = none := by
  decide

example : (BBQ.runState 3 [BBQ.Op.ins 1, BBQ.Op.ins 2, BBQ.Op.rem]).map BBQ.liveList = some [2] := by
  decide

/-- Removed items of a completed run with as many removes as inserts are
exactly the inserted items in order. -/
theorem runOuts_eq_insertedItems (MAX : Nat) (ops : List BBQ.Op) (outs : List Int)
    (hrun : BBQ.runOuts MAX ops = some outs)
    (heq : BBQ.removeCount ops = (BBQ.insertedItems ops).length) :
    outs = BBQ.insertedItems ops := by
  obtain ⟨⟨s1, outs0⟩, hr, ho⟩ := Option.map_eq_some'.mp hrun
  have ho2 : outs0 = outs := ho
  subst ho2
  obtain ⟨_, _, _, _, htake⟩ := BBQ.run_sound MAX ops s1 outs0 hr
  rw [htake, heq, List.take_length]

/-- C1: for every reachable state of the queue — the freshly constructed
queue after any fully completed interleaving of insert and remove
operations — the live-element count `tail - head` satisfies
`0 <= tail - head <= capacity`. -/
theorem C1_capacity_invariant (MAX : Nat) (ops : List BBQ.Op) (s : BBQ.QState)
    (hreach : BBQ.runState MAX ops = some s) :
    0 ≤ (s.tail : Int) - (s.head : Int) ∧
    (s.tail : Int) - (s.head : Int) ≤ (s.cap : Int) := by
  obtain ⟨⟨s1, outs⟩, hr, hs⟩ := Option.map_eq_some'.mp hreach
  have hs2 : s1 = s := hs
  subst hs2
  obtain ⟨hinv, _, _, _, _⟩ := BBQ.run_sound MAX ops s1 outs hr
  have h1 := hinv.hhead
  have h2 := hinv.hcount
  omega

/-- Witness for C1 at capacity 2 after one insert. -/
theorem C1_capacity_invariant_witness :
    BBQ.runState 2 [BBQ.Op.ins 1] = some ⟨2, 0, 1, [1, 0]⟩ ∧
    (0 ≤ ((1 : Nat) : Int) - ((0 : Nat) : Int) ∧
      ((1 : Nat) : Int) - ((0 : Nat) : Int) ≤ ((2 : Nat) : Int)) :=
  ⟨by decide, C1_capacity_invariant 2 [BBQ.Op.ins 1] ⟨2, 0, 1, [1, 0]⟩ (by decide)⟩

/-- C2: in any sequential execution (equivalently, any completed
interleaving of the critical sections) with as many removes as inserts,
the sequence of items returned by remove equals the sequence of items
passed to insert, in order. -/
theorem C2_fifo_order (MAX : Nat) (ops : List BBQ.Op) (outs : List Int)
    (hrun : BBQ.runOuts MAX ops = some outs)
    (heq : BBQ.removeCount ops = (BBQ.insertedItems ops).length) :
    outs = BBQ.insertedItems ops :=
  runOuts_eq_insertedItems MAX ops outs hrun heq

/-- Witness for C2: two inserts followed by two removes at capacity 2. -/
theorem C2_fifo_order_witness :
    BBQ.runOuts 2 [BBQ.Op.ins 5, BBQ.Op.ins 7, BBQ.Op.rem, BBQ.Op.rem] = some [5, 7] ∧
    ([5, 7] : List Int) =
      BBQ.insertedItems [BBQ.Op.ins 5, BBQ.Op.ins 7, BBQ.Op.rem, BBQ.Op.rem] :=
  ⟨by decide,
    C2_fifo_order 2 [BBQ.Op.ins 5, BBQ.Op.ins 7, BBQ.Op.rem, BBQ.Op.rem] [5, 7]
      (by decide) (by decide)⟩

/-- C3: for any fully completed execution of N inserts and N removes, the
multiset of removed items equals the multiset of inserted items — every
item occurs in the outputs exactly as often as it was inserted: no
duplication, no loss. -/
theorem C3_no_loss_no_duplication (MAX : Nat) (ops : List BBQ.Op) (outs : List Int)
    (hrun : BBQ.runOuts MAX ops = some outs)
    (heq : BBQ.removeCount ops = (BBQ.insertedItems ops).length) :
    (outs : Multiset Int) = (BBQ.insertedItems ops : Multiset Int) ∧
    ∀ v : Int, outs.count v = (BBQ.insertedItems ops).count v := by
  have h := runOuts_eq_insertedItems MAX ops outs hrun heq
  subst h
  exact ⟨rfl, fun v => rfl⟩

/-- Witness for C3: two inserts followed by two removes at capacity 2. -/
theorem C3_no_loss_no_duplication_witness :
    (([5, 7] : List Int) : Multiset Int) =
      (BBQ.insertedItems [BBQ.Op.ins 5, BBQ.Op.ins 7, BBQ.Op.rem, BBQ.Op.rem] : Multiset Int) ∧
    ∀ v : Int, ([5, 7] : List Int).count v =
      (BBQ.insertedItems [BBQ.Op.ins 5, BBQ.Op.ins 7, BBQ.Op.rem, BBQ.Op.rem]).count v :=
  C3_no_loss_no_duplication 2 [BBQ.Op.ins 5, BBQ.Op.ins 7, BBQ.Op.rem, BBQ.Op.rem] [5, 7]
    (by decide) (by decide)

/-- C4: when insert proceeds (its guard `count < capacity` holds) it writes
the item into `storage[tail % capacity]`, increments `tail` by exactly one,
leaves `head` alone, and issues exactly one wake-one signal on the
condition removers wait on (and none on the other condition); mirror for
remove: when `count > 0` holds it returns `storage[head % capacity]`,
increments `head` by exactly one, leaves `tail` and the storage alone, and
issues exactly one wake-one signal on the condition inserters wait on. -/
theorem C4_operation_effects (s : BBQ.QState) (v : Int)
    (hlen : s.items.length = s.cap) :
    (BBQ.canInsert s = true → ∃ r, BBQ.insert v s = some r ∧
      r.state.items.getD (s.tail % s.cap) 0 = v ∧
      r.state.tail = s.tail + 1 ∧ r.state.head = s.head ∧ r.state.cap = s.cap ∧
      r.itemAddedSignals = 1 ∧ r.itemRemovedSignals = 0) ∧
    (BBQ.canRemove s = true → ∃ r, BBQ.remove s = some r ∧
      r.ret = s.items.getD (s.head % s.cap) 0 ∧
      r.state.head = s.head + 1 ∧ r.state.tail = s.tail ∧ r.state.cap = s.cap ∧
      r.state.items = s.items ∧
      r.itemAddedSignals = 0 ∧ r.itemRemovedSignals = 1) := by
  constructor
  · intro hci
    have hcnt : s.tail - s.head < s.cap := by
      simpa [BBQ.canInsert] using hci
    have hcap0 : 0 < s.cap := by omega
    have hlt : s.tail % s.cap < s.items.length := by
      rw [hlen]
      exact Nat.mod_lt _ hcap0
    simp only [BBQ.insert, hci, if_true]
    exact ⟨_, rfl, BBQ.getD_set_self hlt, rfl, rfl, rfl, rfl, rfl⟩
  · intro hcr
    simp only [BBQ.remove, hcr, if_true]
    exact ⟨_, rfl, rfl, rfl, rfl, rfl, rfl, rfl, rfl⟩

/-- Witness for C4 at the state with capacity 2 holding one item. -/
theorem C4_operation_effects_witness :
    (BBQ.canInsert ⟨2, 0, 1, [5, 0]⟩ = true →
      ∃ r, BBQ.insert 7 ⟨2, 0, 1, [5, 0]⟩ = some r ∧
        r.state.items.getD (1 % 2) 0 = 7 ∧
        r.state.tail = 1 + 1 ∧ r.state.head = 0 ∧ r.state.cap = 2 ∧
        r.itemAddedSignals = 1 ∧ r.itemRemovedSignals = 0) ∧
    (BBQ.canRemove ⟨2, 0, 1, [5, 0]⟩ = true →
      ∃ r, BBQ.remove ⟨2, 0, 1, [5, 0]⟩ = some r ∧
        r.ret = ([5, 0] : List Int).getD (0 % 2) 0 ∧
        r.state.head = 0 + 1 ∧ r.state.tail = 1 ∧ r.state.cap = 2 ∧
        r.state.items = [5, 0] ∧
        r.itemAddedSignals = 0 ∧ r.itemRemovedSignals = 1) :=
  C4_operation_effects ⟨2, 0, 1, [5, 0]⟩ 7 (by decide)

/-- C5: an insert on a queue at capacity does not complete — and cannot
be the first operation to complete in any interleaving — until a remove
has completed; a remove on an empty queue does not complete until an
insert has completed; and neither operation ever fails or times out: an
operation whose guard holds always completes with its effect. -/
theorem C5_blocking_behaviour (s : BBQ.QState) (v : Int) (ops : List BBQ.Op) :
    (s.tail - s.head = s.cap → BBQ.insert v s = none) ∧
    (s.tail - s.head = s.cap → BBQ.runFrom s (BBQ.Op.ins v :: ops) = none) ∧
    (s.tail - s.head = s.cap → (BBQ.runFrom s ops).isSome = true → ops ≠ [] →
      ∃ rest, ops = BBQ.Op.rem :: rest) ∧
    (s.tail ≤ s.head → BBQ.remove s = none) ∧
    (s.tail ≤ s.head → BBQ.runFrom s (BBQ.Op.rem :: ops) = none) ∧
    (s.tail ≤ s.head → (BBQ.runFrom s ops).isSome = true → ops ≠ [] →
      ∃ v0 rest, ops = BBQ.Op.ins v0 :: rest) ∧
    (BBQ.canInsert s = true → (BBQ.insert v s).isSome = true) ∧
    (BBQ.canRemove s = true → (BBQ.remove s).isSome = true) := by
  have hfull : ∀ w : Int, s.tail - s.head = s.cap → BBQ.insert w s = none := by
    intro w h
    have hb : ¬ (BBQ.canInsert s = true) := by
      simp [BBQ.canInsert]
      omega
    simp [BBQ.insert, hb]
  have hempty : s.tail ≤ s.head → BBQ.remove s = none := by
    intro h
    have hb : ¬ (BBQ.canRemove s = true) := by
      simp [BBQ.canRemove]
      omega
    simp [BBQ.remove, hb]
  refine ⟨hfull v, ?_, ?_, hempty, ?_, ?_, ?_, ?_⟩
  · intro h
    simp [BBQ.runFrom, BBQ.stepOp, hfull v h]
  · intro h hsome hne
    cases ops with
    | nil => exact absurd rfl hne
    | cons op rest =>
      cases op with
      | ins w =>
        rw [BBQ.runFrom] at hsome
        simp [BBQ.stepOp, hfull w h] at hsome
      | rem => exact ⟨rest, rfl⟩
  · intro h
    simp [BBQ.runFrom, BBQ.stepOp, hempty h]
  · intro h hsome hne
    cases ops with
    | nil => exact absurd rfl hne
    | cons op rest =>
      cases op with
      | ins w => exact ⟨w, rest, rfl⟩
      | rem =>
        rw [BBQ.runFrom] at hsome
        simp [BBQ.stepOp, hempty h] at hsome
  · intro hci
    simp [BBQ.insert, hci]
  · intro hcr
    simp [BBQ.remove, hcr]

/-- Witness for C5: capacity-1 full and empty states. -/
theorem C5_blocking_behaviour_witness :
    BBQ.insert 9 ⟨1, 0, 1, [5]⟩ = none ∧
    BBQ.runFrom ⟨1, 0, 1, [5]⟩ [BBQ.Op.ins 9] = none ∧
    (∃ rest, [BBQ.Op.rem] = BBQ.Op.rem :: rest) ∧
    BBQ.remove ⟨1, 0, 0, [0]⟩ = none ∧
    BBQ.runFrom ⟨1, 0, 0, [0]⟩ [BBQ.Op.rem, BBQ.Op.ins 9] = none ∧
    (∃ v0 rest, [BBQ.Op.ins 4] = BBQ.Op.ins v0 :: rest) ∧
    (BBQ.insert 9 ⟨2, 0, 1, [5, 0]⟩).isSome = true ∧
    (BBQ.remove ⟨2, 0, 1, [5, 0]⟩).isSome = true :=
  ⟨(C5_blocking_behaviour ⟨1, 0, 1, [5]⟩ 9 []).1 (by decide),
   (C5_blocking_behaviour ⟨1, 0, 1, [5]⟩ 9 []).2.1 (by decide),
   (C5_blocking_behaviour ⟨1, 0, 1, [5]⟩ 9 [BBQ.Op.rem]).2.2.1 (by decide) (by decide)
     (by decide),
   (C5_blocking_behaviour ⟨1, 0, 0, [0]⟩ 9 []).2.2.2.1 (by decide),
   (C5_blocking_behaviour ⟨1, 0, 0, [0]⟩ 9 [BBQ.Op.ins 9]).2.2.2.2.1 (by decide),
   (C5_blocking_behaviour ⟨1, 0, 0, [0]⟩ 9 [BBQ.Op.ins 4]).2.2.2.2.2.1 (by decide)
     (by decide) (by decide),
   (C5_blocking_behaviour ⟨2, 0, 1, [5, 0]⟩ 9 []).2.2.2.2.2.2.1 (by decide),
   (C5_blocking_behaviour ⟨2, 0, 1, [5, 0]⟩ 9 []).2.2.2.2.2.2.2 (by decide)⟩

/-- C6: the concrete scenario at capacity 3: after inserting 10, 20, 30
the queue holds [10, 20, 30] and a fourth insert of 40 is blocked; one
remove returns 10, after which the insert of 40 completes and the queue
holds [20, 30, 40]; three further removes return 20, 30, 40 in order,
leaving the queue empty so that a further remove is blocked. -/
theorem C6_concrete_scenario :
    ((BBQ.runState 3 [BBQ.Op.ins 10, BBQ.Op.ins 20, BBQ.Op.ins 30]).map BBQ.liveList
      = some [10, 20, 30]) ∧
    ((BBQ.runState 3 [BBQ.Op.ins 10, BBQ.Op.ins 20, BBQ.Op.ins 30]).map
      (fun s => (BBQ.insert 40 s).isSome) = some false) ∧
    (BBQ.runOuts 3 [BBQ.Op.ins 10, BBQ.Op.ins 20, BBQ.Op.ins 30, BBQ.Op.rem]
      = some [10]) ∧
    ((BBQ.runState 3 [BBQ.Op.ins 10, BBQ.Op.ins 20, BBQ.Op.ins 30, BBQ.Op.rem]).map
      (fun s => (BBQ.insert 40 s).isSome) = some true) ∧
    ((BBQ.runState 3 [BBQ.Op.ins 10, BBQ.Op.ins 20, BBQ.Op.ins 30, BBQ.Op.rem,
      BBQ.Op.ins 40]).map BBQ.liveList = some [20, 30, 40]) ∧
    (BBQ.runOuts 3 [BBQ.Op.ins 10, BBQ.Op.ins 20, BBQ.Op.ins 30, BBQ.Op.rem,
      BBQ.Op.ins 40, BBQ.Op.rem, BBQ.Op.rem, BBQ.Op.rem] = some [10, 20, 30, 40]) ∧
    ((BBQ.runState 3 [BBQ.Op.ins 10, BBQ.Op.ins 20, BBQ.Op.ins 30, BBQ.Op.rem,
      BBQ.Op.ins 40, BBQ.Op.rem, BBQ.Op.rem, BBQ.Op.rem]).map BBQ.liveList
      = some []) ∧
    ((BBQ.runState 3 [BBQ.Op.ins 10, BBQ.Op.ins 20, BBQ.Op.ins 30, BBQ.Op.rem,
      BBQ.Op.ins 40, BBQ.Op.rem, BBQ.Op.rem, BBQ.Op.rem]).map
      (fun s => (BBQ.remove s).isSome) = some false) := by
  decide

/-- C7 counterexample: the queue operations the driver actually calls
(`TSQueue::insert` / `TSQueue::remove` in `producerTask` and
`consumerTask`, src/main.cpp lines 30 and 56) return a `bool`, and the
caller's behaviour branches on it — an operation returning a
success/failure indication does exist in the design, contradicting the
claim at the concrete call with position 0. -/
theorem C7_counterexample :
    Driver.producerIterationReport true 0 = some 1 ∧
    Driver.producerIterationReport false 0 = none ∧
    Driver.producerIterationReport true 0 ≠ Driver.producerIterationReport false 0 ∧
    Driver.consumerIterationReport true 0 ≠ Driver.consumerIterationReport false 0 := by
  decide

/-- C7 amended: the blocking queue `BBQ` itself exposes `insert(item)` and
`remove() -> item` that complete exactly when their guard holds and never
return a failure indication; the driver, however, calls `TSQueue`
operations that return a success/failure boolean which `producerTask` and
`consumerTask` test. -/
theorem C7_amended_interface (s : BBQ.QState) (v : Int) :
    ((BBQ.insert v s).isSome = BBQ.canInsert s) ∧
    ((BBQ.remove s).isSome = BBQ.canRemove s) ∧
    (Driver.producerIterationReport true v ≠ Driver.producerIterationReport false v) ∧
    (Driver.consumerIterationReport true v ≠ Driver.consumerIterationReport false v) := by
  refine ⟨?_, ?_, by simp [Driver.producerIterationReport],
    by simp [Driver.consumerIterationReport]⟩
  · cases hb : BBQ.canInsert s with
    | true => simp [BBQ.insert, hb]
    | false => simp [BBQ.insert, hb]
  · cases hb : BBQ.canRemove s with
    | true => simp [BBQ.remove, hb]
    | false => simp [BBQ.remove, hb]

/-- Witness for the amended C7 at the empty capacity-1 state. -/
theorem C7_amended_interface_witness :
    ((BBQ.insert 3 ⟨1, 0, 0, [0]⟩).isSome = BBQ.canInsert ⟨1, 0, 0, [0]⟩) ∧
    ((BBQ.remove ⟨1, 0, 0, [0]⟩).isSome = BBQ.canRemove ⟨1, 0, 0, [0]⟩) ∧
    (Driver.producerIterationReport true 3 ≠ Driver.producerIterationReport false 3) ∧
    (Driver.consumerIterationReport true 3 ≠ Driver.consumerIterationReport false 3) :=
  C7_amended_interface ⟨1, 0, 0, [0]⟩ 3

/-- C8: the capacity is a positive value fixed when the queue comes into
existence and immutable thereafter: the constructed queue has capacity
`MAX`, no completed insert or remove changes the capacity, and every
reachable state still has capacity `MAX`. -/
theorem C8_capacity_fixed (MAX : Nat) (hpos : 0 < MAX) :
    (BBQ.init MAX).cap = MAX ∧ 0 < (BBQ.init MAX).cap ∧
    (∀ s v r, BBQ.insert v s = some r → r.state.cap = s.cap) ∧
    (∀ s r, BBQ.remove s = some r → r.state.cap = s.cap) ∧
    (∀ ops s, BBQ.runState MAX ops = some s → s.cap = MAX) := by
  refine ⟨rfl, hpos, ?_, ?_, ?_⟩
  · intro s v r h
    cases hb : BBQ.canInsert s with
    | true =>
      simp only [BBQ.insert, hb, if_true, Option.some.injEq] at h
      subst h
      rfl
    | false => simp [BBQ.insert, hb] at h
  · intro s r h
    cases hb : BBQ.canRemove s with
    | true =>
      simp only [BBQ.remove, hb, if_true, Option.some.injEq] at h
      subst h
      rfl
    | false => simp [BBQ.remove, hb] at h
  · intro ops s h
    obtain ⟨⟨s1, outs⟩, hr, hs⟩ := Option.map_eq_some'.mp h
    have hs2 : s1 = s := hs
    subst hs2
    obtain ⟨_, hcap, _, _, _⟩ := BBQ.run_sound MAX ops s1 outs hr
    exact hcap

/-- Witness for C8 at capacity 3. -/
theorem C8_capacity_fixed_witness :
    (BBQ.init 3).cap = 3 ∧ 0 < (BBQ.init 3).cap ∧
    (∀ s v r, BBQ.insert v s = some r → r.state.cap = s.cap) ∧
    (∀ s r, BBQ.remove s = some r → r.state.cap = s.cap) ∧
    (∀ ops s, BBQ.runState 3 ops = some s → s.cap = 3) :=
  C8_capacity_fixed 3 (by decide)

/-- C9 counterexample: called with the non-numeric first argument "abc"
(and "5"), the driver does not abort with the usage message — `atoi`
parses "abc" as 0 and `main` proceeds to spawn the threads. -/
theorem C9_counterexample :
    Driver.mainArgPhase ["abc", "5"] = Driver.MainOutcome.spawn ⟨0, 5⟩ ∧
    Driver.mainArgPhase ["abc", "5"] ≠ Driver.MainOutcome.usageAbort := by
  decide

/-- C9 amended: with an invalid argument count the driver aborts with the
usage message before spawning any thread; non-numeric arguments are not
detected: with exactly two arguments the driver always proceeds to spawn,
parsing each argument with `atoi`, which yields 0 on a non-numeric
argument such as "abc". -/
theorem C9_usage_abort (args : List String) :
    (args.length + 1 ≠ 3 → Driver.mainArgPhase args = Driver.MainOutcome.usageAbort) ∧
    (∀ a b : String, Driver.mainArgPhase [a, b]
      = Driver.MainOutcome.spawn ⟨Driver.atoi a, Driver.atoi b⟩) ∧
    Driver.atoi "abc" = 0 := by
  refine ⟨?_, ?_, by decide⟩
  · intro h
    simp [Driver.mainArgPhase, h]
  · intro a b
    simp [Driver.mainArgPhase]

/-- Witness for C9: one argument aborts; "abc" and "5" spawn with 0. -/
theorem C9_usage_abort_witness :
    Driver.mainArgPhase ["7"] = Driver.MainOutcome.usageAbort ∧
    Driver.mainArgPhase ["abc", "5"]
      = Driver.MainOutcome.spawn ⟨Driver.atoi "abc", Driver.atoi "5"⟩ ∧
    Driver.atoi "abc" = 0 :=
  ⟨(C9_usage_abort ["7"]).1 (by decide),
   (C9_usage_abort []).2.1 "abc" "5",
   (C9_usage_abort []).2.2⟩

/-- C10: the worker loops' sleep computation `rand() % max_sleep_time_ms`
is well-defined when `max_sleep_time_ms > 0`, hits the division-by-zero
error branch when `max_sleep_time_ms = 0`, and that branch is reachable:
a non-numeric command-line argument is parsed by `atoi` as 0 and flows
into the computation unguarded. -/
theorem C10_sleep_modulo (r m : Int) :
    (0 < m → (Driver.sleepDuration r m).isSome = true) ∧
    Driver.sleepDuration r 0 = none ∧
    (∀ cfg, Driver.mainArgPhase ["abc", "5"] = Driver.MainOutcome.spawn cfg →
      Driver.sleepDuration r cfg.producersMaxSleep = none) := by
  refine ⟨?_, by simp [Driver.sleepDuration], ?_⟩
  · intro h
    have hne : ¬ (m = 0) := by omega
    simp [Driver.sleepDuration, hne]
  · intro cfg h
    have h2 : Driver.mainArgPhase ["abc", "5"] = Driver.MainOutcome.spawn ⟨0, 5⟩ := by
      decide
    rw [h2] at h
    injection h with hcfg
    subst hcfg
    simp [Driver.sleepDuration]

/-- Witness for C10 with rand value 7 and sleep bound 2. -/
theorem C10_sleep_modulo_witness :
    (0 : Int) < 2 ∧ (Driver.sleepDuration 7 2).isSome = true ∧
    Driver.sleepDuration 7 0 = none :=
  ⟨by decide, (C10_sleep_modulo 7 2).1 (by decide), (C10_sleep_modulo 7 0).2.1⟩
